import Mathlib

/-!
Shallow embedding of the Arctic-Compressor Embedded-Scheduler
(src/scheduler/Scheduler.hpp, src/scheduler/Scheduler.cpp).

Modelling conventions:
* 32-bit unsigned values are natural numbers reduced modulo `U32 = 2 ^ 32`
  at every arithmetic operation that can overflow.
* A task's function pointer is `Option Nat` (an opaque action identifier);
  `none` models `NULL`.
* The caller-owned task array is a `List Task`; the scheduler's `task_table_`
  pointer is `Option (List Task)` where `none` models `NULL`.
* `Scheduler.run` returns, besides the updated state, the list of table
  indices whose actions were invoked, in invocation order.
* `Scheduler.init` returns the boolean result, the updated scheduler state,
  and the caller's task array after the call (on success the bound table
  aliases the caller's array, whose `last_called_` fields were rewritten).
-/

namespace EmbSched

def U32 : Nat := 2 ^ 32

/-- Unsigned 32-bit wraparound subtraction: `(a - b) mod 2 ^ 32`. -/
def sub32 (a b : Nat) : Nat := (a % U32 + (U32 - b % U32)) % U32

/-- One task descriptor (class `Scheduler::Task` in Scheduler.hpp): a function
pointer, an interval in ticks, and the private bookkeeping `last_called_`. -/
structure Task where
  func : Option Nat
  interval : Nat
  last_called_ : Nat
deriving DecidableEq

/-- The scheduler state: the fields of class `Scheduler` in Scheduler.hpp. -/
structure Scheduler where
  sys_tick_ctr_ : Nat
  systick_interval_ : Nat
  num_tasks_ : Nat
  task_table_ : Option (List Task)
deriving DecidableEq

/-- A default-constructed `Scheduler` (member initializers in Scheduler.hpp:
counter 0, tick step 1, no tasks, null table). -/
def Scheduler.initial : Scheduler :=
  { sys_tick_ctr_ := 0, systick_interval_ := 1, num_tasks_ := 0, task_table_ := none }

/-- The body of the second loop of `Scheduler::init`:
`last_called_ = UINT32_MAX - interval + 1` in unsigned 32-bit arithmetic. -/
def resetTask (t : Task) : Task :=
  { t with last_called_ := (U32 - 1 - t.interval % U32 + 1) % U32 }

/-- The validation loop of `Scheduler::init`: the first `n` entries all have a
non-null function pointer.  Reading past the end of the array is undefined
behaviour in the C++ source; the model makes it fail validation. -/
def funcsNonNull : List Task → Nat → Bool
  | _, 0 => true
  | [], _ + 1 => false
  | t :: ts, n + 1 => t.func.isSome && funcsNonNull ts n

/-- The second loop of `Scheduler::init`: rewrite `last_called_` of the first
`n` entries. -/
def resetFirst : List Task → Nat → List Task
  | l, 0 => l
  | [], _ + 1 => []
  | t :: ts, n + 1 => resetTask t :: resetFirst ts n

/-- `Scheduler::init(taskTable, num_tasks, systick_interval)`.  Mirrors the
source order: the tick step is stored first, then the null-table check, then
the per-task function validation, then binding and the `last_called_` loop and
the counter reset. -/
def Scheduler.init (s : Scheduler) (taskTable : Option (List Task))
    (num_tasks : Nat) (systick_interval : Nat) :
    Bool × Scheduler × Option (List Task) :=
  let s1 : Scheduler := { s with systick_interval_ := systick_interval }
  match taskTable with
  | none => (false, s1, none)
  | some tbl =>
    if funcsNonNull tbl num_tasks then
      let tbl2 := resetFirst tbl num_tasks
      (true,
        { s1 with task_table_ := some tbl2, num_tasks_ := num_tasks, sys_tick_ctr_ := 0 },
        some tbl2)
    else (false, s1, some tbl)

/-- `Scheduler::tick()`: `sys_tick_ctr_ += systick_interval_` in unsigned
32-bit arithmetic; returns the new counter value. -/
def Scheduler.tick (s : Scheduler) : Nat × Scheduler :=
  (((s.sys_tick_ctr_ + s.systick_interval_) % U32),
    { s with sys_tick_ctr_ := (s.sys_tick_ctr_ + s.systick_interval_) % U32 })

/-- `Scheduler::getTickCount()`. -/
def Scheduler.getTickCount (s : Scheduler) : Nat := s.sys_tick_ctr_

/-- `Scheduler::setTickInterval(systick_interval)`. -/
def Scheduler.setTickInterval (s : Scheduler) (systick_interval : Nat) : Scheduler :=
  { s with systick_interval_ := systick_interval }

/-- The dispatch condition of `Scheduler::run` for one task at counter
snapshot `sysctr`: continuous (`interval == 0`), or
`sysctr - last_called_ >= interval` in unsigned 32-bit arithmetic. -/
def taskFires (sysctr : Nat) (t : Task) : Prop :=
  t.interval = 0 ∨ t.interval ≤ sub32 sysctr t.last_called_

instance (sysctr : Nat) (t : Task) : Decidable (taskFires sysctr t) :=
  inferInstanceAs (Decidable (t.interval = 0 ∨ t.interval ≤ sub32 sysctr t.last_called_))

/-- The effect of one iteration of the `Scheduler::run` loop on the task it
examined (given that its function pointer is non-null): a fired periodic task
records the counter snapshot in `last_called_`; otherwise nothing changes. -/
def stepTask (sysctr : Nat) (t : Task) : Task :=
  if t.interval = 0 then t
  else if t.interval ≤ sub32 sysctr t.last_called_ then
    { t with last_called_ := sysctr % U32 }
  else t

/-- The loop of `Scheduler::run` over the first `num_tasks_` entries: returns
the updated entries and the indices of the tasks whose actions were invoked,
in order.  A null function pointer breaks the loop. -/
def runLoop (sysctr : Nat) : List Task → List Task × List Nat
  | [] => ([], [])
  | t :: ts =>
    if t.func = none then (t :: ts, [])
    else if t.interval = 0 then
      (t :: (runLoop sysctr ts).1, 0 :: (runLoop sysctr ts).2.map (· + 1))
    else if t.interval ≤ sub32 sysctr t.last_called_ then
      ({ t with last_called_ := sysctr % U32 } :: (runLoop sysctr ts).1,
        0 :: (runLoop sysctr ts).2.map (· + 1))
    else (t :: (runLoop sysctr ts).1, (runLoop sysctr ts).2.map (· + 1))

/-- `Scheduler::run()`.  The C++ loop iterates over indices `i < num_tasks_`
of the bound array; the model runs `runLoop` on the first `num_tasks_`
entries and leaves the rest of the array untouched.  With a null bound table
the loop body never executes (`num_tasks_` is only ever set together with a
non-null table). -/
def Scheduler.run (s : Scheduler) : Scheduler × List Nat :=
  match s.task_table_ with
  | none => (s, [])
  | some tbl =>
    ({ s with
        task_table_ :=
          some ((runLoop s.sys_tick_ctr_ (tbl.take s.num_tasks_)).1 ++ tbl.drop s.num_tasks_) },
      (runLoop s.sys_tick_ctr_ (tbl.take s.num_tasks_)).2)

lemma U32_eq : U32 = 4294967296 := by norm_num [U32]

lemma U32_pos : 0 < U32 := by norm_num [U32]

lemma stepTask_func (c : Nat) (t : Task) : (stepTask c t).func = t.func := by
  unfold stepTask
  split <;> try rfl
  split <;> rfl

lemma stepTask_interval (c : Nat) (t : Task) : (stepTask c t).interval = t.interval := by
  unfold stepTask
  split <;> try rfl
  split <;> rfl

lemma guard_cons_zero (t : Task) (ts : List Task) :
    (∀ j, j ≤ 0 → ∀ u, (t :: ts)[j]? = some u → u.func ≠ none) ↔ t.func ≠ none := by
  constructor
  · intro h
    exact h 0 (Nat.le_refl 0) t List.getElem?_cons_zero
  · intro h j hj u hu
    have hj0 : j = 0 := Nat.le_zero.mp hj
    subst hj0
    simp only [List.getElem?_cons_zero, Option.some.injEq] at hu
    subst hu
    exact h

lemma guard_cons_iff (t : Task) (ts : List Task) (k : Nat) :
    (∀ j, j ≤ k + 1 → ∀ u, (t :: ts)[j]? = some u → u.func ≠ none) ↔
      (t.func ≠ none ∧ ∀ j, j ≤ k → ∀ u, ts[j]? = some u → u.func ≠ none) := by
  constructor
  · intro h
    refine ⟨h 0 (Nat.zero_le _) t List.getElem?_cons_zero, fun j hj u hu => ?_⟩
    exact h (j + 1) (Nat.succ_le_succ hj) u (by simpa using hu)
  · rintro ⟨h0, h⟩ j hj u hu
    cases j with
    | zero =>
      simp only [List.getElem?_cons_zero, Option.some.injEq] at hu
      subst hu
      exact h0
    | succ j => exact h j (Nat.le_of_succ_le_succ hj) u (by simpa using hu)

/-- Membership in the invocation log of the run loop: task `i` is invoked
precisely when no entry at a position up to `i` has a null function pointer
and entry `i` satisfies the dispatch condition. -/
lemma mem_runLoop_iff (c : Nat) (l : List Task) (i : Nat) :
    i ∈ (runLoop c l).2 ↔
      ((∀ j, j ≤ i → ∀ u, l[j]? = some u → u.func ≠ none) ∧
        ∃ t, l[i]? = some t ∧ taskFires c t) := by
  induction l generalizing i with
  | nil => simp [runLoop]
  | cons t ts ih =>
    by_cases ht : t.func = none
    · rw [runLoop, if_pos ht]
      constructor
      · intro h
        exact absurd h (List.not_mem_nil i)
      · rintro ⟨hguard, -⟩
        exact absurd ht (hguard 0 (Nat.zero_le i) t List.getElem?_cons_zero)
    · by_cases hint : t.interval = 0
      · cases i with
        | zero =>
          rw [runLoop, if_neg ht, if_pos hint]
          exact iff_of_true (List.mem_cons_self 0 _)
            ⟨(guard_cons_zero t ts).mpr ht, t, List.getElem?_cons_zero, Or.inl hint⟩
        | succ k =>
          have h1 : (k + 1 ∈ (runLoop c (t :: ts)).2) ↔ k ∈ (runLoop c ts).2 := by
            rw [runLoop, if_neg ht, if_pos hint]
            simp
          rw [h1, ih k, guard_cons_iff]
          simp only [List.getElem?_cons_succ]
          tauto
      · by_cases hdue : t.interval ≤ sub32 c t.last_called_
        · cases i with
          | zero =>
            rw [runLoop, if_neg ht, if_neg hint, if_pos hdue]
            exact iff_of_true (List.mem_cons_self 0 _)
              ⟨(guard_cons_zero t ts).mpr ht, t, List.getElem?_cons_zero, Or.inr hdue⟩
          | succ k =>
            have h1 : (k + 1 ∈ (runLoop c (t :: ts)).2) ↔ k ∈ (runLoop c ts).2 := by
              rw [runLoop, if_neg ht, if_neg hint, if_pos hdue]
              simp
            rw [h1, ih k, guard_cons_iff]
            simp only [List.getElem?_cons_succ]
            tauto
        · cases i with
          | zero =>
            refine iff_of_false ?_ ?_
            · rw [runLoop, if_neg ht, if_neg hint, if_neg hdue]
              simp
            · rintro ⟨-, u, hu, hf⟩
              simp only [List.getElem?_cons_zero, Option.some.injEq] at hu
              subst hu
              rcases hf with h0 | hle
              · exact hint h0
              · exact hdue hle
          | succ k =>
            have h1 : (k + 1 ∈ (runLoop c (t :: ts)).2) ↔ k ∈ (runLoop c ts).2 := by
              rw [runLoop, if_neg ht, if_neg hint, if_neg hdue]
              simp
            rw [h1, ih k, guard_cons_iff]
            simp only [List.getElem?_cons_succ]
            tauto

lemma runLoop_fst_length (c : Nat) (l : List Task) : (runLoop c l).1.length = l.length := by
  induction l with
  | nil => rfl
  | cons t ts ih =>
    by_cases ht : t.func = none
    · simp [runLoop, ht]
    · by_cases hint : t.interval = 0
      · simp [runLoop, ht, hint, ih]
      · by_cases hdue : t.interval ≤ sub32 c t.last_called_
        · simp [runLoop, ht, hint, hdue, ih]
        · simp [runLoop, ht, hint, hdue, ih]

/-- Entries the loop reaches (no null function pointer at or before them) are
updated by `stepTask`. -/
lemma runLoop_fst_reached (c : Nat) (l : List Task) (i : Nat)
    (h : ∀ j, j ≤ i → ∀ u, l[j]? = some u → u.func ≠ none) :
    (runLoop c l).1[i]? = (l[i]?).map (stepTask c) := by
  induction l generalizing i with
  | nil => simp [runLoop]
  | cons t ts ih =>
    have ht : t.func ≠ none := h 0 (Nat.zero_le i) t List.getElem?_cons_zero
    cases i with
    | zero =>
      by_cases hint : t.interval = 0
      · simp [runLoop, ht, hint, stepTask]
      · by_cases hdue : t.interval ≤ sub32 c t.last_called_
        · simp [runLoop, ht, hint, hdue, stepTask]
        · simp [runLoop, ht, hint, hdue, stepTask]
    | succ k =>
      have h' : ∀ j, j ≤ k → ∀ u, ts[j]? = some u → u.func ≠ none :=
        ((guard_cons_iff t ts k).mp h).2
      by_cases hint : t.interval = 0
      · simpa [runLoop, ht, hint] using ih k h'
      · by_cases hdue : t.interval ≤ sub32 c t.last_called_
        · simpa [runLoop, ht, hint, hdue] using ih k h'
        · simpa [runLoop, ht, hint, hdue] using ih k h'

/-- Entries at or after a null function pointer are left untouched by the run
loop. -/
lemma runLoop_fst_unreached (c : Nat) (l : List Task) (i j : Nat) (u : Task)
    (hj : j ≤ i) (hu : l[j]? = some u) (hnull : u.func = none) :
    (runLoop c l).1[i]? = l[i]? := by
  induction l generalizing i j with
  | nil => simp [runLoop]
  | cons t ts ih =>
    by_cases ht : t.func = none
    · simp [runLoop, ht]
    · cases j with
      | zero =>
        simp only [List.getElem?_cons_zero, Option.some.injEq] at hu
        subst hu
        exact absurd hnull ht
      | succ k =>
        obtain ⟨i2, rfl⟩ : ∃ i2, i = i2 + 1 := ⟨i - 1, by omega⟩
        have step : (runLoop c (t :: ts)).1[i2 + 1]? = (runLoop c ts).1[i2]? := by
          by_cases hint : t.interval = 0
          · simp [runLoop, ht, hint]
          · by_cases hdue : t.interval ≤ sub32 c t.last_called_
            · simp [runLoop, ht, hint, hdue]
            · simp [runLoop, ht, hint, hdue]
        rw [step, List.getElem?_cons_succ]
        exact ih i2 k (Nat.le_of_succ_le_succ hj) (by simpa using hu)

/-- The invocation log lists task indices in strictly increasing order. -/
lemma runLoop_snd_pairwise (c : Nat) (l : List Task) :
    ((runLoop c l).2).Pairwise (· < ·) := by
  induction l with
  | nil => simp [runLoop]
  | cons t ts ih =>
    have hmap : (((runLoop c ts).2).map (· + 1)).Pairwise (· < ·) :=
      List.Pairwise.map _ (fun a b h => Nat.succ_lt_succ h) ih
    have hcons : ((0 : Nat) :: ((runLoop c ts).2).map (· + 1)).Pairwise (· < ·) := by
      refine List.pairwise_cons.mpr ⟨?_, hmap⟩
      intro b hb
      simp only [List.mem_map] at hb
      obtain ⟨a, -, rfl⟩ := hb
      omega
    by_cases ht : t.func = none
    · simp [runLoop, ht]
    · by_cases hint : t.interval = 0
      · simpa [runLoop, ht, hint] using hcons
      · by_cases hdue : t.interval ≤ sub32 c t.last_called_
        · simpa [runLoop, ht, hint, hdue] using hcons
        · simpa [runLoop, ht, hint, hdue] using hmap

lemma funcsNonNull_iff (l : List Task) (n : Nat) :
    funcsNonNull l n = true ↔ ∀ j, j < n → ∃ u, l[j]? = some u ∧ u.func ≠ none := by
  induction l generalizing n with
  | nil =>
    cases n with
    | zero => simp [funcsNonNull]
    | succ m =>
      simp only [funcsNonNull, Bool.false_eq_true, false_iff]
      intro h
      rcases h 0 (Nat.succ_pos m) with ⟨u, hu, -⟩
      simp at hu
  | cons t ts ih =>
    cases n with
    | zero => simp [funcsNonNull]
    | succ m =>
      simp only [funcsNonNull, Bool.and_eq_true, ih]
      constructor
      · rintro ⟨h0, h⟩ j hj
        cases j with
        | zero => exact ⟨t, List.getElem?_cons_zero, Option.isSome_iff_ne_none.mp h0⟩
        | succ k => simpa using h k (Nat.lt_of_succ_lt_succ hj)
      · intro h
        constructor
        · rcases h 0 (Nat.succ_pos m) with ⟨u, hu, hne⟩
          simp only [List.getElem?_cons_zero, Option.some.injEq] at hu
          subst hu
          exact Option.isSome_iff_ne_none.mpr hne
        · intro k hk
          rcases h (k + 1) (Nat.succ_lt_succ hk) with ⟨u, hu, hne⟩
          exact ⟨u, by simpa using hu, hne⟩

lemma resetFirst_length (l : List Task) (n : Nat) : (resetFirst l n).length = l.length := by
  induction l generalizing n with
  | nil => cases n <;> rfl
  | cons t ts ih =>
    cases n with
    | zero => rfl
    | succ m => simp [resetFirst, ih m]

lemma getElem?_resetFirst (l : List Task) (n i : Nat) :
    (resetFirst l n)[i]? = if i < n then (l[i]?).map resetTask else l[i]? := by
  induction l generalizing n i with
  | nil => cases n <;> simp [resetFirst]
  | cons t ts ih =>
    cases n with
    | zero => simp [resetFirst]
    | succ m =>
      cases i with
      | zero => simp [resetFirst]
      | succ k => simpa [resetFirst, Nat.succ_lt_succ_iff] using ih m k

/-- `run` on a scheduler whose task count equals the bound table's length. -/
lemma run_eq_full (s : Scheduler) (tbl : List Task)
    (htab : s.task_table_ = some tbl) (hn : s.num_tasks_ = tbl.length) :
    s.run = ({ s with task_table_ := some (runLoop s.sys_tick_ctr_ tbl).1 },
      (runLoop s.sys_tick_ctr_ tbl).2) := by
  simp only [Scheduler.run, htab, hn, List.take_length, List.drop_length, List.append_nil]

/-- A failed `init` stores the new tick step and changes nothing else; the
caller's array is returned unmodified. -/
lemma init_failed (s : Scheduler) (tt : Option (List Task)) (n step : Nat)
    (h : (Scheduler.init s tt n step).1 = false) :
    Scheduler.init s tt n step = (false, { s with systick_interval_ := step }, tt) := by
  cases tt with
  | none => rfl
  | some tbl =>
    by_cases hv : funcsNonNull tbl n
    · simp [Scheduler.init, hv] at h
    · simp [Scheduler.init, hv]

/-- A successful `init` binds the table (with the first `n` entries reset),
stores the count and the step, and zeroes the counter. -/
lemma init_success (s : Scheduler) (tbl : List Task) (n step : Nat)
    (h : funcsNonNull tbl n = true) :
    Scheduler.init s (some tbl) n step =
      (true,
        { sys_tick_ctr_ := 0, systick_interval_ := step, num_tasks_ := n,
          task_table_ := some (resetFirst tbl n) },
        some (resetFirst tbl n)) := by
  simp [Scheduler.init, h]

lemma resetTask_func (t : Task) : (resetTask t).func = t.func := rfl

lemma resetTask_interval (t : Task) : (resetTask t).interval = t.interval := rfl

/-- The `last_called_` value written by `init` makes a periodic task due at
counter 0: the wraparound elapsed time equals the interval. -/
lemma sub32_zero_reset (K : Nat) (hKpos : 0 < K) (hKlt : K < U32) :
    sub32 0 ((U32 - 1 - K % U32 + 1) % U32) = K := by
  simp only [sub32]
  rw [U32_eq] at hKlt ⊢
  omega

lemma init_success_funcs (s : Scheduler) (tbl : List Task) (n step : Nat)
    (h : (Scheduler.init s (some tbl) n step).1 = true) :
    funcsNonNull tbl n = true := by
  by_cases hv : funcsNonNull tbl n
  · exact hv
  · simp [Scheduler.init, hv] at h

/-- `run` on any bound scheduler, in terms of the loop over the first
`num_tasks_` entries. -/
lemma run_eq_take (s : Scheduler) (tbl : List Task) (htab : s.task_table_ = some tbl) :
    s.run =
      ({ s with
          task_table_ :=
            some ((runLoop s.sys_tick_ctr_ (tbl.take s.num_tasks_)).1 ++
              tbl.drop s.num_tasks_) },
        (runLoop s.sys_tick_ctr_ (tbl.take s.num_tasks_)).2) := by
  simp only [Scheduler.run, htab]

/-- C1 counterexample: the claim is false as stated.  On a failed `init`
(here: null table) the tick step does not keep its pre-call value 7 — the
source stores the new step 3 before any validation. -/
theorem C1_counterexample :
    (Scheduler.init
        { sys_tick_ctr_ := 5, systick_interval_ := 7, num_tasks_ := 0, task_table_ := none }
        none 0 3).2.1.systick_interval_ ≠ 7 := by
  decide

/-- C1 (amended): a failed `init` returns failure and leaves the previously
bound table, the task count, the tick counter, and every task's
`last_called_` unchanged (the caller's array is returned untouched as well);
however the tick step does not keep its pre-call value: it is unconditionally
set to the new argument before validation. -/
theorem C1_init_failure_frame (s : Scheduler) (tt : Option (List Task)) (n step : Nat)
    (h : (Scheduler.init s tt n step).1 = false) :
    (Scheduler.init s tt n step).2.1.task_table_ = s.task_table_ ∧
    (Scheduler.init s tt n step).2.1.num_tasks_ = s.num_tasks_ ∧
    (Scheduler.init s tt n step).2.1.sys_tick_ctr_ = s.sys_tick_ctr_ ∧
    (Scheduler.init s tt n step).2.1.systick_interval_ = step ∧
    (Scheduler.init s tt n step).2.2 = tt := by
  rw [init_failed s tt n step h]
  exact ⟨rfl, rfl, rfl, rfl, rfl⟩

/-- C1 witness: the amended theorem at a concrete failed `init` (one task
with a null action). -/
theorem C1_witness :
    (Scheduler.init Scheduler.initial (some [⟨none, 4, 0⟩]) 1 9).1 = false ∧
    (Scheduler.init Scheduler.initial (some [⟨none, 4, 0⟩]) 1 9).2.1.task_table_ =
      Scheduler.initial.task_table_ :=
  ⟨by decide,
    (C1_init_failure_frame Scheduler.initial (some [⟨none, 4, 0⟩]) 1 9 (by decide)).1⟩

/-- C4 counterexample: the claim is false as stated.  In the uninitialized
(default-constructed) state `tick()` is neither rejected nor a no-op: it
changes the observable scheduler state (the tick counter becomes 1). -/
theorem C4_counterexample : (Scheduler.initial.tick).2 ≠ Scheduler.initial := by
  decide

/-- C4 (amended): before any successful `initialize` the scheduler is
unbound (null table, zero tasks); in that state `run()` is a no-op that
invokes no task and changes no state, but `tick()` is not a no-op: it
advances the tick counter by the tick step (by 1 from the default state).
The table becomes bound only through a successful `init`: a failed `init`
leaves the binding unchanged, and `run`, `tick` and `setTickInterval` never
change whether a table is bound. -/
theorem C4_uninitialized_behavior (s : Scheduler) (tt : Option (List Task)) (n step : Nat)
    (hfail : (Scheduler.init s tt n step).1 = false) :
    Scheduler.initial.run = (Scheduler.initial, []) ∧
    (Scheduler.initial.tick).2.sys_tick_ctr_ = 1 ∧
    (Scheduler.init s tt n step).2.1.task_table_ = s.task_table_ ∧
    (∀ s2 : Scheduler,
      ((s2.run).1.task_table_ = none ↔ s2.task_table_ = none) ∧
      (s2.tick).2.task_table_ = s2.task_table_ ∧
      ∀ v, (s2.setTickInterval v).task_table_ = s2.task_table_) := by
  refine ⟨rfl, by decide, ?_, ?_⟩
  · rw [init_failed s tt n step hfail]
  · intro s2
    refine ⟨?_, rfl, fun v => rfl⟩
    unfold Scheduler.run
    cases htt : s2.task_table_ <;> simp [htt]

/-- C4 witness: the amended theorem at a concrete failed `init`. -/
theorem C4_witness :
    (Scheduler.init Scheduler.initial none 0 1).1 = false ∧
    Scheduler.initial.run = (Scheduler.initial, []) :=
  ⟨by decide, (C4_uninitialized_behavior Scheduler.initial none 0 1 (by decide)).1⟩

/-- C8: `setTickInterval` changes only the tick step: the counter, the task
count, and the bound table — hence every task's `last_called_` — are
unchanged; the invocation log of `run` (the due status of every task) is
identical before and after, and subsequent `tick` calls use the new step. -/
theorem C8_setTickInterval_frame (s : Scheduler) (v : Nat) :
    (s.setTickInterval v).systick_interval_ = v ∧
    (s.setTickInterval v).sys_tick_ctr_ = s.sys_tick_ctr_ ∧
    (s.setTickInterval v).num_tasks_ = s.num_tasks_ ∧
    (s.setTickInterval v).task_table_ = s.task_table_ ∧
    ((s.setTickInterval v).run).2 = (s.run).2 ∧
    ((s.setTickInterval v).tick).1 = (s.sys_tick_ctr_ + v) % U32 := by
  refine ⟨rfl, rfl, rfl, rfl, ?_, rfl⟩
  unfold Scheduler.run Scheduler.setTickInterval
  cases htt : s.task_table_ <;> simp [htt]

/-- C10: `init` with a non-null table and count 0 succeeds: validation
examines no entry, the table is bound unchanged with a task count of zero,
the step is stored, the counter is reset to 0, and `run` on the resulting
scheduler invokes no task and returns the state unchanged. -/
theorem C10_zero_count_init (s : Scheduler) (tbl : List Task) (step : Nat) :
    (Scheduler.init s (some tbl) 0 step).1 = true ∧
    (Scheduler.init s (some tbl) 0 step).2.1 =
      { sys_tick_ctr_ := 0, systick_interval_ := step, num_tasks_ := 0,
        task_table_ := some tbl } ∧
    (Scheduler.init s (some tbl) 0 step).2.1.run =
      ((Scheduler.init s (some tbl) 0 step).2.1, []) := by
  have hr : resetFirst tbl 0 = tbl := by cases tbl <;> rfl
  rw [init_success s tbl 0 step (by cases tbl <;> rfl), hr]
  refine ⟨rfl, rfl, ?_⟩
  simp [Scheduler.run, runLoop]

/-- C5: a successful `initialize(table, count, tick_step)` binds exactly that
table and count, stores the tick step, resets the tick counter to 0, and
rewrites `last_called_` of each of the first `count` descriptors to
`(2 ^ 32 - 1) - interval + 1` in unsigned 32-bit arithmetic (entries beyond
`count` are untouched); consequently every periodic descriptor (positive
interval) among the first `count` is invoked on the very first dispatch
cycle. -/
theorem C5_init_success_effects (s : Scheduler) (tbl : List Task) (n step : Nat)
    (hsucc : (Scheduler.init s (some tbl) n step).1 = true) :
    (Scheduler.init s (some tbl) n step).2.1.num_tasks_ = n ∧
    (Scheduler.init s (some tbl) n step).2.1.systick_interval_ = step ∧
    (Scheduler.init s (some tbl) n step).2.1.sys_tick_ctr_ = 0 ∧
    (∃ tbl2, (Scheduler.init s (some tbl) n step).2.1.task_table_ = some tbl2 ∧
      tbl2.length = tbl.length ∧
      (∀ j u, j < n → tbl[j]? = some u → u.interval < U32 →
        tbl2[j]? = some { u with last_called_ := (U32 - 1 - u.interval + 1) % U32 }) ∧
      (∀ j, n ≤ j → tbl2[j]? = tbl[j]?)) ∧
    (∀ i u, i < n → tbl[i]? = some u → 0 < u.interval → u.interval < U32 →
      i ∈ ((Scheduler.init s (some tbl) n step).2.1.run).2) := by
  have hfn : funcsNonNull tbl n = true := init_success_funcs s tbl n step hsucc
  have hval := (funcsNonNull_iff tbl n).mp hfn
  rw [init_success s tbl n step hfn]
  refine ⟨rfl, rfl, rfl, ⟨resetFirst tbl n, rfl, resetFirst_length tbl n, ?_, ?_⟩, ?_⟩
  · intro j u hj hu hult
    rw [getElem?_resetFirst, if_pos hj, hu]
    simp [resetTask, Nat.mod_eq_of_lt hult]
  · intro j hj
    rw [getElem?_resetFirst, if_neg (by omega)]
  · intro i u hi hu hupos hult
    simp only [Scheduler.run]
    rw [mem_runLoop_iff]
    refine ⟨?_, resetTask u, ?_, Or.inr ?_⟩
    · intro j hj u2 hu2
      have hjn : j < n := lt_of_le_of_lt hj hi
      rw [List.getElem?_take, if_pos hjn, getElem?_resetFirst, if_pos hjn] at hu2
      rcases hval j hjn with ⟨u0, hu0, hne⟩
      rw [hu0] at hu2
      simp only [Option.map_some', Option.some.injEq] at hu2
      rw [← hu2, resetTask_func]
      exact hne
    · rw [List.getElem?_take, if_pos hi, getElem?_resetFirst, if_pos hi, hu]
      rfl
    · show u.interval ≤ sub32 0 ((U32 - 1 - u.interval % U32 + 1) % U32)
      rw [sub32_zero_reset u.interval hupos hult]

/-- C5 witness: one periodic task with interval 10; initialization succeeds
and the task is invoked on the first dispatch cycle. -/
theorem C5_witness :
    (Scheduler.init Scheduler.initial (some [⟨some 1, 10, 0⟩]) 1 5).1 = true ∧
    0 ∈ ((Scheduler.init Scheduler.initial (some [⟨some 1, 10, 0⟩]) 1 5).2.1.run).2 :=
  ⟨by decide,
    (C5_init_success_effects Scheduler.initial [⟨some 1, 10, 0⟩] 1 5 (by decide)).2.2.2.2
      0 ⟨some 1, 10, 0⟩ (by decide) (by decide) (by decide) (by decide)⟩

/-- C6: with the first null action at position `i` of the bound table, every
`run()` cycle invokes no task at position `i` or later, evaluates the tasks
before `i` normally (invoking exactly the due ones), and removes nothing:
the table keeps its length and every entry from position `i` on — the null
entry included — is left unchanged, so the truncation recurs on every
cycle. -/
theorem C6_null_action_truncates (s : Scheduler) (tbl : List Task) (i : Nat) (t : Task)
    (htab : s.task_table_ = some tbl) (hn : s.num_tasks_ = tbl.length)
    (hi : tbl[i]? = some t) (hnull : t.func = none)
    (hbefore : ∀ j, j < i → ∀ u, tbl[j]? = some u → u.func ≠ none) :
    (∀ k, k ∈ (s.run).2 → k < i) ∧
    (∀ j, j < i → (j ∈ (s.run).2 ↔ ∃ u, tbl[j]? = some u ∧ taskFires s.sys_tick_ctr_ u)) ∧
    (∃ tbl2, (s.run).1.task_table_ = some tbl2 ∧ tbl2.length = tbl.length ∧
      ∀ k, i ≤ k → tbl2[k]? = tbl[k]?) := by
  have hrun := run_eq_full s tbl htab hn
  have h2 : (s.run).2 = (runLoop s.sys_tick_ctr_ tbl).2 := by rw [hrun]
  have h1 : (s.run).1.task_table_ = some (runLoop s.sys_tick_ctr_ tbl).1 := by rw [hrun]
  refine ⟨?_, ?_, (runLoop s.sys_tick_ctr_ tbl).1, h1, runLoop_fst_length _ tbl, ?_⟩
  · intro k hk
    rw [h2] at hk
    rcases (mem_runLoop_iff _ tbl k).mp hk with ⟨hguard, -⟩
    by_contra hik
    push_neg at hik
    exact (hguard i hik t hi) hnull
  · intro j hj
    rw [h2, mem_runLoop_iff]
    constructor
    · rintro ⟨-, u, hu, hf⟩
      exact ⟨u, hu, hf⟩
    · rintro ⟨u, hu, hf⟩
      exact ⟨fun j2 hj2 u2 hu2 => hbefore j2 (lt_of_le_of_lt hj2 hj) u2 hu2, u, hu, hf⟩
  · intro k hk
    exact runLoop_fst_unreached _ tbl k i t hk hi hnull

/-- C6 witness: a three-entry table whose middle action is null; the run
cycle invokes no task at position 1 or later. -/
theorem C6_witness :
    (([⟨some 1, 0, 0⟩, ⟨none, 0, 0⟩, ⟨some 2, 0, 0⟩] : List Task))[1]? = some ⟨none, 0, 0⟩ ∧
    ∀ k, k ∈ ((⟨0, 1, 3, some [⟨some 1, 0, 0⟩, ⟨none, 0, 0⟩, ⟨some 2, 0, 0⟩]⟩ :
      Scheduler).run).2 → k < 1 :=
  ⟨by decide,
    (C6_null_action_truncates
      ⟨0, 1, 3, some [⟨some 1, 0, 0⟩, ⟨none, 0, 0⟩, ⟨some 2, 0, 0⟩]⟩
      [⟨some 1, 0, 0⟩, ⟨none, 0, 0⟩, ⟨some 2, 0, 0⟩] 1 ⟨none, 0, 0⟩ rfl rfl
      (by decide) rfl
      (by
        intro j hj u hu
        have hj0 : j = 0 := by omega
        subst hj0
        simp only [List.getElem?_cons_zero, Option.some.injEq] at hu
        subst hu
        decide)).1⟩

/-- C7: a continuous task (interval 0) that the loop reaches (no null action
at or before its position) is invoked exactly once on every `run()` call,
whatever the tick counter holds, and its descriptor — in particular its
`last_called_` field — is left unchanged. -/
theorem C7_continuous_every_cycle (s : Scheduler) (tbl : List Task) (i : Nat) (t : Task)
    (htab : s.task_table_ = some tbl) (hn : s.num_tasks_ = tbl.length)
    (hi : tbl[i]? = some t) (hcont : t.interval = 0)
    (hupto : ∀ j, j ≤ i → ∀ u, tbl[j]? = some u → u.func ≠ none) :
    (s.run).2.count i = 1 ∧
    (∃ tbl2, (s.run).1.task_table_ = some tbl2 ∧ tbl2[i]? = some t) := by
  have hrun := run_eq_full s tbl htab hn
  have h2 : (s.run).2 = (runLoop s.sys_tick_ctr_ tbl).2 := by rw [hrun]
  have h1 : (s.run).1.task_table_ = some (runLoop s.sys_tick_ctr_ tbl).1 := by rw [hrun]
  have hmem : i ∈ (runLoop s.sys_tick_ctr_ tbl).2 :=
    (mem_runLoop_iff _ tbl i).mpr ⟨hupto, t, hi, Or.inl hcont⟩
  refine ⟨?_, (runLoop s.sys_tick_ctr_ tbl).1, h1, ?_⟩
  · rw [h2]
    exact List.count_eq_one_of_mem (runLoop_snd_pairwise _ tbl).nodup hmem
  · rw [runLoop_fst_reached _ tbl i hupto, hi]
    simp [stepTask, hcont]

/-- C7 witness: one continuous task at an arbitrary counter value 123 is
invoked exactly once per cycle. -/
theorem C7_witness :
    (⟨some 5, 0, 7⟩ : Task).interval = 0 ∧
    ((⟨123, 1, 1, some [⟨some 5, 0, 7⟩]⟩ : Scheduler).run).2.count 0 = 1 :=
  ⟨rfl,
    (C7_continuous_every_cycle ⟨123, 1, 1, some [⟨some 5, 0, 7⟩]⟩ [⟨some 5, 0, 7⟩] 0
      ⟨some 5, 0, 7⟩ rfl rfl (by decide) rfl
      (by
        intro j hj u hu
        have hj0 : j = 0 := by omega
        subst hj0
        simp only [List.getElem?_cons_zero, Option.some.injEq] at hu
        subst hu
        decide)).1⟩

/-- C9: a successful `init` with `count` tasks has validated all `count`
actions non-null; consequently, in any later bound state whose first `count`
descriptors still carry the same (unmutated) action pointers, the null-action
early exit of `run()` is unreachable: every one of the `count` descriptors is
evaluated on every cycle and is dispatched exactly when its condition holds. -/
theorem C9_validated_no_truncation (s : Scheduler) (tbl : List Task) (n step : Nat)
    (hsucc : (Scheduler.init s (some tbl) n step).1 = true) :
    (∀ j, j < n → ∃ u, tbl[j]? = some u ∧ u.func ≠ none) ∧
    (∀ (s2 : Scheduler) (tbl2 : List Task),
      s2.task_table_ = some tbl2 → s2.num_tasks_ = n →
      (∀ j, j < n → (tbl2[j]?).map Task.func = (tbl[j]?).map Task.func) →
      ∀ j, j < n → ∃ u2, tbl2[j]? = some u2 ∧
        (j ∈ (s2.run).2 ↔ taskFires s2.sys_tick_ctr_ u2)) := by
  have hfn : funcsNonNull tbl n = true := init_success_funcs s tbl n step hsucc
  have hval := (funcsNonNull_iff tbl n).mp hfn
  refine ⟨hval, ?_⟩
  intro s2 tbl2 htab2 hn2 hagree j hj
  rcases hval j hj with ⟨u, hu, hune⟩
  have hmap : (tbl2[j]?).map Task.func = some u.func := by rw [hagree j hj, hu]; rfl
  rcases Option.map_eq_some'.mp hmap with ⟨u2, hu2, hfun2⟩
  refine ⟨u2, hu2, ?_⟩
  have hrun := run_eq_take s2 tbl2 htab2
  have h2 : (s2.run).2 = (runLoop s2.sys_tick_ctr_ (tbl2.take n)).2 := by rw [hrun, hn2]
  rw [h2, mem_runLoop_iff]
  constructor
  · rintro ⟨-, u3, hu3, hf3⟩
    rw [List.getElem?_take, if_pos hj, hu2] at hu3
    cases hu3
    exact hf3
  · intro hf
    refine ⟨?_, u2, ?_, hf⟩
    · intro j2 hj2 u4 hu4
      have hj2n : j2 < n := lt_of_le_of_lt hj2 hj
      rw [List.getElem?_take, if_pos hj2n] at hu4
      rcases hval j2 hj2n with ⟨u5, hu5, hu5ne⟩
      have hmap2 : (tbl2[j2]?).map Task.func = some u5.func := by
        rw [hagree j2 hj2n, hu5]; rfl
      rcases Option.map_eq_some'.mp hmap2 with ⟨u6, hu6, hfun6⟩
      rw [hu6] at hu4
      cases hu4
      rw [hfun6]
      exact hu5ne
    · rw [List.getElem?_take, if_pos hj, hu2]

/-- C9 witness: the theorem applied after a concrete successful `init`. -/
theorem C9_witness :
    (Scheduler.init Scheduler.initial (some [⟨some 1, 2, 0⟩]) 1 1).1 = true ∧
    ∃ u, ([⟨some 1, 2, 0⟩] : List Task)[0]? = some u ∧ u.func ≠ none :=
  ⟨by decide,
    (C9_validated_no_truncation Scheduler.initial [⟨some 1, 2, 0⟩] 1 1 (by decide)).1
      0 (by decide)⟩

/-- C3: for a reached periodic task (interval `K > 0`, no null action in the
bound table) the dispatch decision is exactly the unsigned wraparound
comparison: `run()` invokes it iff the modular elapsed count
`(counter - last_called_) mod 2 ^ 32` has reached `K` — for every counter and
every recorded `last_called_`, wrapped values included, so the task neither
fires early nor gets stuck when the counter overflows past its maximum. -/
theorem C3_wraparound_dispatch (s : Scheduler) (tbl : List Task) (i K : Nat) (t : Task)
    (htab : s.task_table_ = some tbl) (hn : s.num_tasks_ = tbl.length)
    (hnonull : ∀ u ∈ tbl, u.func ≠ none)
    (hi : tbl[i]? = some t) (hK : t.interval = K) (hKpos : 0 < K) :
    i ∈ (s.run).2 ↔ K ≤ sub32 s.sys_tick_ctr_ t.last_called_ := by
  have hrun := run_eq_full s tbl htab hn
  have h2 : (s.run).2 = (runLoop s.sys_tick_ctr_ tbl).2 := by rw [hrun]
  rw [h2, mem_runLoop_iff]
  constructor
  · rintro ⟨-, u, hu, hf⟩
    rw [hi] at hu
    cases hu
    rcases hf with h0 | hle
    · rw [hK] at h0
      omega
    · rw [hK] at hle
      exact hle
  · intro hle
    refine ⟨fun j hj u hu => hnonull u (List.getElem?_mem hu), t, hi, Or.inr ?_⟩
    rw [hK]
    exact hle

/-- C3 witness: the counter wrapped past the maximum (last run at
`2 ^ 32 - 5`, counter now 5): the modular elapsed count is exactly 10, so a
task with interval 10 fires; one tick earlier (elapsed 9) it does not. -/
theorem C3_witness :
    (10 : Nat) ≤ sub32 5 4294967291 ∧
    0 ∈ ((⟨5, 1, 1, some [⟨some 3, 10, 4294967291⟩]⟩ : Scheduler).run).2 ∧
    0 ∉ ((⟨4, 1, 1, some [⟨some 3, 10, 4294967291⟩]⟩ : Scheduler).run).2 :=
  ⟨by decide,
    (C3_wraparound_dispatch ⟨5, 1, 1, some [⟨some 3, 10, 4294967291⟩]⟩
        [⟨some 3, 10, 4294967291⟩] 0 10 ⟨some 3, 10, 4294967291⟩ rfl rfl (by decide)
        (by decide) rfl (by decide)).mpr (by decide),
    fun h =>
      absurd ((C3_wraparound_dispatch ⟨4, 1, 1, some [⟨some 3, 10, 4294967291⟩]⟩
        [⟨some 3, 10, 4294967291⟩] 0 10 ⟨some 3, 10, 4294967291⟩ rfl rfl (by decide)
        (by decide) rfl (by decide)).mp h) (by decide)⟩

/-- C2: after a successful `init` (tick counter 0) a periodic task with
interval `K > 0` is invoked on the very first `run()`; its invocation records
counter snapshot 0 in `last_called_`, and on later cycles — whatever value
the externally advanced counter holds — it is invoked again exactly when the
counter has advanced by at least `K` (in unsigned wraparound arithmetic)
from that recorded snapshot. -/
theorem C2_periodic_first_fire_then_wait (s : Scheduler) (tbl : List Task) (step i K : Nat)
    (t : Task)
    (hsucc : (Scheduler.init s (some tbl) tbl.length step).1 = true)
    (hi : tbl[i]? = some t) (hK : t.interval = K) (hKpos : 0 < K) (hKlt : K < U32) :
    i ∈ ((Scheduler.init s (some tbl) tbl.length step).2.1.run).2 ∧
    (∀ c2 : Nat,
      i ∈ (({ ((Scheduler.init s (some tbl) tbl.length step).2.1.run).1 with
          sys_tick_ctr_ := c2 } : Scheduler).run).2 ↔ K ≤ sub32 c2 0) := by
  have hfn : funcsNonNull tbl tbl.length = true :=
    init_success_funcs s tbl tbl.length step hsucc
  have hval := (funcsNonNull_iff tbl tbl.length).mp hfn
  have hlt : i < tbl.length := by
    by_contra hge
    rw [List.getElem?_eq_none (by omega)] at hi
    cases hi
  rw [init_success s tbl tbl.length step hfn]
  set tbl1 := resetFirst tbl tbl.length with htbl1
  have hlen1 : tbl1.length = tbl.length := resetFirst_length tbl tbl.length
  have htake : List.take tbl.length tbl1 = tbl1 := by
    rw [← hlen1]
    exact List.take_length tbl1
  have hdrop : List.drop tbl.length tbl1 = [] := by
    rw [← hlen1]
    exact List.drop_length tbl1
  have hguard : ∀ (j : Nat) (u : Task), tbl1[j]? = some u → u.func ≠ none := by
    intro j u hu
    rw [htbl1, getElem?_resetFirst] at hu
    by_cases hjn : j < tbl.length
    · rw [if_pos hjn] at hu
      rcases hval j hjn with ⟨u0, hu0, hne⟩
      rw [hu0] at hu
      simp only [Option.map_some', Option.some.injEq] at hu
      rw [← hu, resetTask_func]
      exact hne
    · rw [if_neg hjn, List.getElem?_eq_none (by omega)] at hu
      cases hu
  have hentry : tbl1[i]? = some (resetTask t) := by
    rw [htbl1, getElem?_resetFirst, if_pos hlt, hi]
    rfl
  have hdue0 : (resetTask t).interval ≤ sub32 0 ((resetTask t).last_called_) := by
    show t.interval ≤ sub32 0 ((U32 - 1 - t.interval % U32 + 1) % U32)
    rw [hK, sub32_zero_reset K hKpos hKlt]
  constructor
  · show i ∈ (runLoop 0 (List.take tbl.length tbl1)).2
    rw [htake, mem_runLoop_iff]
    exact ⟨fun j hj u hu => hguard j u hu, resetTask t, hentry, Or.inr hdue0⟩
  · intro c2
    have htakeB : List.take tbl.length ((runLoop 0 tbl1).1) = (runLoop 0 tbl1).1 := by
      have hlB : ((runLoop 0 tbl1).1).length = tbl.length := by
        rw [runLoop_fst_length 0 tbl1, hlen1]
      rw [← hlB]
      exact List.take_length ((runLoop 0 tbl1).1)
    show i ∈ (runLoop c2 (List.take tbl.length
        ((runLoop 0 (List.take tbl.length tbl1)).1 ++ List.drop tbl.length tbl1))).2 ↔
      K ≤ sub32 c2 0
    rw [htake, hdrop, List.append_nil, htakeB, mem_runLoop_iff]
    have hKne : (resetTask t).interval ≠ 0 := by
      rw [resetTask_interval, hK]
      omega
    have hstep : stepTask 0 (resetTask t) = { t with last_called_ := 0 % U32 } := by
      unfold stepTask
      rw [if_neg hKne, if_pos hdue0]
      rfl
    have hB : ((runLoop 0 tbl1).1)[i]? = some { t with last_called_ := 0 % U32 } := by
      rw [runLoop_fst_reached 0 tbl1 i (fun j hj u hu => hguard j u hu), hentry]
      simp only [Option.map_some', hstep]
    have hguardB : ∀ (j : Nat) (u : Task), ((runLoop 0 tbl1).1)[j]? = some u → u.func ≠ none := by
      intro j u hu
      rw [runLoop_fst_reached 0 tbl1 j (fun j2 hj2 u2 hu2 => hguard j2 u2 hu2)] at hu
      cases hB2 : tbl1[j]? with
      | none => rw [hB2] at hu; cases hu
      | some u0 =>
        rw [hB2] at hu
        simp only [Option.map_some', Option.some.injEq] at hu
        rw [← hu, stepTask_func]
        exact hguard j u0 hB2
    constructor
    · rintro ⟨-, u, hu, hf⟩
      rw [hB] at hu
      cases hu
      rcases hf with h0 | hle
      · rw [show ({ t with last_called_ := 0 % U32 } : Task).interval = t.interval from rfl,
          hK] at h0
        omega
      · rw [show ({ t with last_called_ := 0 % U32 } : Task).interval = t.interval from rfl,
          hK,
          show ({ t with last_called_ := 0 % U32 } : Task).last_called_ = 0 % U32 from rfl,
          Nat.zero_mod] at hle
        exact hle
    · intro hle
      refine ⟨fun j hj u hu => hguardB j u hu, { t with last_called_ := 0 % U32 }, hB,
        Or.inr ?_⟩
      show t.interval ≤ sub32 c2 (0 % U32)
      rw [hK, Nat.zero_mod]
      exact hle

/-- C2 witness: the spec's example scenario — one periodic task with
interval 10, initialized at tick 0: the first `run()` fires it, at counter 5
it does not fire again, at counter 10 it does. -/
theorem C2_witness :
    (Scheduler.init Scheduler.initial (some [⟨some 9, 10, 0⟩]) 1 1).1 = true ∧
    0 ∈ ((Scheduler.init Scheduler.initial (some [⟨some 9, 10, 0⟩]) 1 1).2.1.run).2 ∧
    0 ∉ (({ ((Scheduler.init Scheduler.initial (some [⟨some 9, 10, 0⟩]) 1 1).2.1.run).1 with
        sys_tick_ctr_ := 5 } : Scheduler).run).2 ∧
    0 ∈ (({ ((Scheduler.init Scheduler.initial (some [⟨some 9, 10, 0⟩]) 1 1).2.1.run).1 with
        sys_tick_ctr_ := 10 } : Scheduler).run).2 := by
  have h := C2_periodic_first_fire_then_wait Scheduler.initial [⟨some 9, 10, 0⟩] 1 0 10
    ⟨some 9, 10, 0⟩ (by decide) (by decide) rfl (by decide) (by decide)
  refine ⟨by decide, h.1, ?_, (h.2 10).mpr (by decide)⟩
  intro hmem
  exact absurd ((h.2 5).mp hmem) (by decide)

end EmbSched
